import Mathlib

/- Shallow embedding of the Alembic migration `d2d62f3291f0_.py` from
`flask_advanced` (5/01-model/migrations/versions).  The migration adds a
nullable `password VARCHAR(32)` column to the `users` table on `upgrade`
and drops it on `downgrade`.

A database schema is modelled as a list of tables; a table has a name, a
list of columns and a list of rows (each row a list of values aligned with
the column list).  `op.add_column` and `op.drop_column` are modelled as
fallible operations: the underlying engine rejects a missing table, a
duplicate column on add, and a missing column on drop.  The migration file
itself does no checking: each of `upgrade` and `downgrade` issues exactly
one operation and propagates any failure. -/

namespace Migration

/-- A database cell value; `null` models SQL NULL. -/
inductive Value where
  | null
  | str (s : String)
  | int (n : Int)
deriving DecidableEq, Repr

/-- SQLAlchemy column types used in this development; `varchar n` models
`sa.String(length=n)`. -/
inductive SqlType where
  | varchar (length : Nat)
  | integer
  | text
  | boolean
deriving DecidableEq, Repr

/-- A column as declared by `sa.Column`: name, type, nullability, server
default, and the flag-style constraints SQLAlchemy attaches. -/
structure Column where
  name : String
  type : SqlType
  nullable : Bool
  default : Option Value
  primaryKey : Bool
  unique : Bool
  index : Bool
deriving DecidableEq, Repr

/-- A table: its name, its column declarations, and its rows. -/
structure Table where
  name : String
  columns : List Column
  rows : List (List Value)
deriving DecidableEq, Repr

/-- A schema is the list of tables of the database. -/
abbrev Schema := List Table

/-- The column added by the migration:
`sa.Column('password', sa.String(length=32), nullable=True)`.
All other `sa.Column` keyword arguments keep their defaults. -/
def passwordColumn : Column :=
  { name := "password", type := SqlType.varchar 32, nullable := true,
    default := none, primaryKey := false, unique := false, index := false }

/-- Failures raised by the underlying database engine. -/
inductive MigrationError where
  | noSuchTable (table : String)
  | duplicateColumn (table column : String)
  | noSuchColumn (table column : String)
deriving DecidableEq, Repr

/-- The value stored in a freshly added column: the server default when one
is declared, SQL NULL otherwise. -/
def Column.initialValue (c : Column) : Value :=
  match c.default with
  | some v => v
  | none => Value.null

/-- Adding a column to a table appends the declaration and extends every
existing row with the column's initial value. -/
def addColumnToTable (c : Column) (t : Table) : Table :=
  { t with columns := t.columns ++ [c],
           rows := t.rows.map (fun r => r ++ [c.initialValue]) }

/-- Dropping a column removes the (first) declaration with that name and
the corresponding cell of every row. -/
def dropColumnFromTable (colName : String) (t : Table) : Table :=
  { t with
    columns :=
      t.columns.eraseIdx (t.columns.findIdx fun c => c.name == colName),
    rows := t.rows.map fun r =>
      r.eraseIdx (t.columns.findIdx fun c => c.name == colName) }

/-- Apply a table transformation to the table with the given name. -/
def modifyTable : Schema → String → (Table → Table) → Schema
  | [], _, _ => []
  | t :: ts, tname, f =>
    if t.name == tname then f t :: ts else t :: modifyTable ts tname f

/-- Look up a table by name. -/
def findTable (s : Schema) (tname : String) : Option Table :=
  s.find? (fun t => t.name == tname)

/-- `op.add_column(tname, c)`: fails when the table is missing or already
has a column of that name; otherwise adds the column. -/
def op_add_column (tname : String) (c : Column) (s : Schema) :
    Except MigrationError Schema :=
  match findTable s tname with
  | none => Except.error (MigrationError.noSuchTable tname)
  | some t =>
    if t.columns.any (fun col => col.name == c.name) then
      Except.error (MigrationError.duplicateColumn tname c.name)
    else
      Except.ok (modifyTable s tname (addColumnToTable c))

/-- `op.drop_column(tname, colName)`: fails when the table or the column is
missing; otherwise drops the column. -/
def op_drop_column (tname colName : String) (s : Schema) :
    Except MigrationError Schema :=
  match findTable s tname with
  | none => Except.error (MigrationError.noSuchTable tname)
  | some t =>
    if t.columns.any (fun col => col.name == colName) then
      Except.ok (modifyTable s tname (dropColumnFromTable colName))
    else
      Except.error (MigrationError.noSuchColumn tname colName)

/-- A single Alembic schema operation. -/
inductive Op where
  | addColumn (table : String) (col : Column)
  | dropColumn (table : String) (column : String)
deriving DecidableEq, Repr

/-- Semantics of one operation. -/
def applyOp : Op → Schema → Except MigrationError Schema
  | Op.addColumn t c, s => op_add_column t c s
  | Op.dropColumn t c, s => op_drop_column t c s

/-- Run a sequence of operations, stopping at the first failure. -/
def applyOps : List Op → Schema → Except MigrationError Schema
  | [], s => Except.ok s
  | o :: os, s => (applyOp o s).bind (applyOps os)

/-- `revision = 'd2d62f3291f0'` from the migration header. -/
def revision : String := "d2d62f3291f0"

/-- `down_revision = None` from the migration header. -/
def down_revision : Option String := none

/-- `branch_labels = None` from the migration header. -/
def branch_labels : Option String := none

/-- `depends_on = None` from the migration header. -/
def depends_on : Option String := none

/-- The body of `upgrade()`: the single
`op.add_column('users', sa.Column('password', ...))` call. -/
def upgradeOps : List Op := [Op.addColumn "users" passwordColumn]

/-- The body of `downgrade()`: the single
`op.drop_column('users', 'password')` call. -/
def downgradeOps : List Op := [Op.dropColumn "users" "password"]

/-- `upgrade()` runs its operation list on the schema. -/
def upgrade (s : Schema) : Except MigrationError Schema := applyOps upgradeOps s

/-- `downgrade()` runs its operation list on the schema. -/
def downgrade (s : Schema) : Except MigrationError Schema :=
  applyOps downgradeOps s

/-- Erasing at the index just past a list removes an appended element. -/
theorem eraseIdx_append_length {α : Type} (l : List α) (a : α) :
    (l ++ [a]).eraseIdx l.length = l := by
  induction l with
  | nil => rfl
  | cons x xs ih =>
    show (x :: (xs ++ [a])).eraseIdx (xs.length + 1) = x :: xs
    rw [List.eraseIdx_cons_succ, ih]

/-- When no element of `l` satisfies `p` but `a` does, the first index
satisfying `p` in `l ++ [a]` is `l.length`. -/
theorem findIdx_append_singleton {α : Type} (l : List α) (a : α) (p : α → Bool)
    (hl : ∀ x ∈ l, p x = false) (ha : p a = true) :
    (l ++ [a]).findIdx p = l.length := by
  induction l with
  | nil => simp [List.findIdx_cons, ha]
  | cons x xs ih =>
    have hx : p x = false := hl x (List.mem_cons_self x xs)
    show ((x :: (xs ++ [a])).findIdx p) = xs.length + 1
    rw [List.findIdx_cons, hx]
    simp [ih (fun y hy => hl y (List.mem_cons_of_mem x hy))]

/-- Pointwise-identical maps act as the identity. -/
theorem map_eq_self_of_mem {α : Type} (l : List α) (f : α → α)
    (h : ∀ x ∈ l, f x = x) : l.map f = l := by
  induction l with
  | nil => rfl
  | cons x xs ih =>
    rw [List.map_cons, h x (List.mem_cons_self x xs),
      ih (fun y hy => h y (List.mem_cons_of_mem x hy))]

/-- Erasing the first match of a predicate preserves the sublist of
non-matching elements. -/
theorem filter_not_eraseIdx_findIdx {α : Type} (l : List α) (p : α → Bool)
    (h : l.any p = true) :
    (l.eraseIdx (l.findIdx p)).filter (fun x => !(p x)) =
      l.filter (fun x => !(p x)) := by
  induction l with
  | nil => simp at h
  | cons x xs ih =>
    by_cases hx : p x = true
    · rw [List.findIdx_cons, hx]
      simp [List.eraseIdx_cons_zero, List.filter_cons, hx]
    · have hx' : p x = false := by revert hx; cases p x <;> simp
      have hxs : xs.any p = true := by
        rw [List.any_cons, hx'] at h
        simpa using h
      rw [List.findIdx_cons, hx']
      simp only [cond_false, List.eraseIdx_cons_succ, List.filter_cons, hx',
        ih hxs]

/-- If at most one element of `l` satisfies `p`, then after erasing the
first match none remains. -/
theorem countP_le_one_eraseIdx_findIdx {α : Type} (l : List α) (p : α → Bool)
    (h : l.countP p ≤ 1) :
    ∀ x ∈ l.eraseIdx (l.findIdx p), p x = false := by
  induction l with
  | nil => intro x hx; simp at hx
  | cons a as ih =>
    by_cases ha : p a = true
    · rw [List.findIdx_cons, ha]
      simp only [cond_true, List.eraseIdx_cons_zero]
      rw [List.countP_cons_of_pos p as ha] at h
      have h0 : as.countP p = 0 := by omega
      intro x hx
      have := List.countP_eq_zero.mp h0 x hx
      revert this; cases p x <;> simp
    · have ha' : p a = false := by revert ha; cases p a <;> simp
      rw [List.findIdx_cons, ha']
      simp only [cond_false, List.eraseIdx_cons_succ]
      rw [List.countP_cons_of_neg p as (by simp [ha'])] at h
      intro x hx
      rcases List.mem_cons.mp hx with hxa | hxs
      · rw [hxa]; exact ha'
      · exact ih h x hxs

/-- `findTable` success decomposes the schema around the first table with
the given name. -/
theorem findTable_decomp (s : Schema) (tname : String) (t : Table)
    (h : findTable s tname = some t) :
    (t.name == tname) = true ∧
      ∃ pre post, s = pre ++ t :: post ∧
        ∀ x ∈ pre, (x.name == tname) = false := by
  induction s with
  | nil => simp [findTable] at h
  | cons hd tl ih =>
    rw [findTable] at h
    by_cases hname : (hd.name == tname) = true
    · rw [List.find?_cons_of_pos tl hname] at h
      cases h
      exact ⟨hname, [], tl, rfl, by intro x hx; simp at hx⟩
    · rw [List.find?_cons_of_neg tl hname] at h
      obtain ⟨ht, pre, post, hs, hpre⟩ := ih h
      refine ⟨ht, hd :: pre, post, by rw [List.cons_append, hs], ?_⟩
      intro x hx
      rcases List.mem_cons.mp hx with hxa | hxs
      · rw [hxa]
        revert hname; cases hd.name == tname <;> simp
      · exact hpre x hxs

/-- `findTable` finds the table after a prefix of non-matching tables. -/
theorem findTable_append (pre post : Schema) (t : Table) (tname : String)
    (hpre : ∀ x ∈ pre, (x.name == tname) = false)
    (ht : (t.name == tname) = true) :
    findTable (pre ++ t :: post) tname = some t := by
  induction pre with
  | nil =>
    simpa [findTable] using
      @List.find?_cons_of_pos Table (fun tb => tb.name == tname) t post ht
  | cons x xs ih =>
    have hx : ¬ ((x.name == tname) = true) := by
      rw [hpre x (List.mem_cons_self x xs)]; simp
    show List.find? (fun tb => tb.name == tname) (x :: (xs ++ t :: post)) =
      some t
    rw [@List.find?_cons_of_neg Table (fun tb => tb.name == tname) x
      (xs ++ t :: post) hx]
    exact ih (fun y hy => hpre y (List.mem_cons_of_mem x hy))

/-- `modifyTable` rewrites exactly the first table with the given name. -/
theorem modifyTable_append (pre post : Schema) (t : Table) (tname : String)
    (f : Table → Table)
    (hpre : ∀ x ∈ pre, (x.name == tname) = false)
    (ht : (t.name == tname) = true) :
    modifyTable (pre ++ t :: post) tname f = pre ++ f t :: post := by
  induction pre with
  | nil => simp [modifyTable, ht]
  | cons x xs ih =>
    have hx : (x.name == tname) = false := hpre x (List.mem_cons_self x xs)
    show modifyTable (x :: (xs ++ t :: post)) tname f = x :: (xs ++ f t :: post)
    rw [modifyTable, hx]
    simp only [cond_false, Bool.false_eq_true, if_false]
    rw [ih (fun y hy => hpre y (List.mem_cons_of_mem x hy))]

/-- On a users table without a `password` column, `upgrade` succeeds and
rewrites the schema through `modifyTable`. -/
theorem upgrade_ok_shape (s : Schema) (t : Table)
    (hfind : findTable s "users" = some t)
    (hnopw : ∀ c ∈ t.columns, c.name ≠ "password") :
    upgrade s =
      Except.ok (modifyTable s "users" (addColumnToTable passwordColumn)) := by
  have hany : (t.columns.any fun col => col.name == passwordColumn.name)
      = false := by
    rw [List.any_eq_false]
    intro c hc
    have hne := hnopw c hc
    simp only [passwordColumn]
    exact fun hb => hne (beq_iff_eq.mp hb)
  simp [upgrade, upgradeOps, applyOps, applyOp, op_add_column, hfind, hany,
    Except.bind]

/-- On a users table with a `password` column, `downgrade` succeeds and
rewrites the schema through `modifyTable`. -/
theorem downgrade_ok_shape (s : Schema) (t : Table)
    (hfind : findTable s "users" = some t)
    (hhas : (t.columns.any fun c => c.name == "password") = true) :
    downgrade s =
      Except.ok (modifyTable s "users" (dropColumnFromTable "password")) := by
  simp [downgrade, downgradeOps, applyOps, applyOp, op_drop_column, hfind,
    hhas, Except.bind]

/-- A successful `upgrade` run determines the found table and the result. -/
theorem upgrade_ok_inv (s s' : Schema) (h : upgrade s = Except.ok s') :
    ∃ t, findTable s "users" = some t ∧
      (t.columns.any fun c => c.name == "password") = false ∧
      s' = modifyTable s "users" (addColumnToTable passwordColumn) := by
  cases hf : findTable s "users" with
  | none =>
    rw [upgrade, upgradeOps] at h
    simp [applyOps, applyOp, op_add_column, hf, Except.bind] at h
  | some t =>
    cases hany : (t.columns.any fun col => col.name == passwordColumn.name) with
    | false =>
      refine ⟨t, rfl, ?_, ?_⟩
      · simpa only [passwordColumn] using hany
      · rw [upgrade, upgradeOps] at h
        simp [applyOps, applyOp, op_add_column, hf, hany, Except.bind] at h
        exact h.symm
    | true =>
      rw [upgrade, upgradeOps] at h
      simp [applyOps, applyOp, op_add_column, hf, hany, Except.bind] at h

/-- A successful `downgrade` run determines the found table and the result. -/
theorem downgrade_ok_inv (s s' : Schema) (h : downgrade s = Except.ok s') :
    ∃ t, findTable s "users" = some t ∧
      (t.columns.any fun c => c.name == "password") = true ∧
      s' = modifyTable s "users" (dropColumnFromTable "password") := by
  cases hf : findTable s "users" with
  | none =>
    rw [downgrade, downgradeOps] at h
    simp [applyOps, applyOp, op_drop_column, hf, Except.bind] at h
  | some t =>
    cases hany : (t.columns.any fun col => col.name == "password") with
    | false =>
      rw [downgrade, downgradeOps] at h
      simp [applyOps, applyOp, op_drop_column, hf, hany, Except.bind] at h
    | true =>
      refine ⟨t, rfl, hany, ?_⟩
      rw [downgrade, downgradeOps] at h
      simp [applyOps, applyOp, op_drop_column, hf, hany, Except.bind] at h
      exact h.symm

/-- The index `op.drop_column` targets after the add: the appended
`password` column sits at the old column count. -/
theorem findIdx_password_after_add (t : Table)
    (hnopw : ∀ c ∈ t.columns, c.name ≠ "password") :
    ((t.columns ++ [passwordColumn]).findIdx fun c => c.name == "password")
      = t.columns.length := by
  apply findIdx_append_singleton
  · intro x hx
    exact beq_eq_false_iff_ne.mpr (hnopw x hx)
  · exact beq_iff_eq.mpr rfl

/-- Dropping `password` right after adding it restores the columns; with
well-formed rows it restores the whole table. -/
theorem drop_add_password_table (t : Table)
    (hnopw : ∀ c ∈ t.columns, c.name ≠ "password") :
    (dropColumnFromTable "password"
        (addColumnToTable passwordColumn t)).columns = t.columns ∧
      ((∀ r ∈ t.rows, r.length = t.columns.length) →
        dropColumnFromTable "password" (addColumnToTable passwordColumn t)
          = t) := by
  obtain ⟨n, cols, rows⟩ := t
  have hidx : ((cols ++ [passwordColumn]).findIdx
      fun c => c.name == "password") = cols.length :=
    findIdx_password_after_add ⟨n, cols, rows⟩ hnopw
  have hcols : ((cols ++ [passwordColumn]).eraseIdx
      ((cols ++ [passwordColumn]).findIdx fun c => c.name == "password"))
      = cols := by
    rw [hidx]; exact eraseIdx_append_length cols passwordColumn
  constructor
  · exact hcols
  · intro hrows
    have hrows' : ∀ r ∈ rows, r.length = cols.length := hrows
    have hrs : ((rows.map fun r => r ++ [passwordColumn.initialValue]).map
        fun r => r.eraseIdx ((cols ++ [passwordColumn]).findIdx
          fun c => c.name == "password")) = rows := by
      rw [hidx, List.map_map]
      apply map_eq_self_of_mem
      intro r hr
      show (r ++ [passwordColumn.initialValue]).eraseIdx cols.length = r
      rw [← hrows' r hr]
      exact eraseIdx_append_length r passwordColumn.initialValue
    show Table.mk n ((cols ++ [passwordColumn]).eraseIdx
        ((cols ++ [passwordColumn]).findIdx fun c => c.name == "password"))
      ((rows.map fun r => r ++ [passwordColumn.initialValue]).map
        fun r => r.eraseIdx ((cols ++ [passwordColumn]).findIdx
          fun c => c.name == "password"))
      = Table.mk n cols rows
    rw [hcols, hrs]

deriving instance DecidableEq for Except

/-- A concrete `users` table, used to exercise the theorems. -/
def usersTable : Table :=
  { name := "users",
    columns := [
      { name := "id", type := SqlType.integer, nullable := false,
        default := none, primaryKey := true, unique := false, index := false },
      { name := "username", type := SqlType.varchar 64, nullable := false,
        default := none, primaryKey := false, unique := true, index := false }],
    rows := [[Value.int 1, Value.str "alice"],
             [Value.int 2, Value.str "bob"]] }

/-- A concrete unrelated table, used to exercise the frame theorems. -/
def postsTable : Table :=
  { name := "posts",
    columns := [
      { name := "id", type := SqlType.integer, nullable := false,
        default := none, primaryKey := true, unique := false, index := false },
      { name := "body", type := SqlType.text, nullable := true,
        default := none, primaryKey := false, unique := false,
        index := false }],
    rows := [[Value.int 1, Value.str "hello"]] }

/-- A concrete schema with a password-free `users` table. -/
def demoSchema : Schema := [usersTable, postsTable]

/-- The schema produced by running `upgrade` on `demoSchema`. -/
def demoUpgraded : Schema :=
  [addColumnToTable passwordColumn usersTable, postsTable]

/-- The schema produced by running `downgrade` on `demoUpgraded`. -/
def demoDowngraded : Schema :=
  [dropColumnFromTable "password" (addColumnToTable passwordColumn usersTable),
   postsTable]

/-- C1: for every schema whose `users` table exists and has no `password`
column, running `upgrade` and then `downgrade` restores the schema: every
table keeps its name and exact column list (types, nullability, defaults
and constraints included), and with well-formed rows the whole schema is
restored exactly. -/
theorem spec_upgrade_downgrade_roundtrip (s : Schema) (t : Table)
    (hfind : findTable s "users" = some t)
    (hnopw : ∀ c ∈ t.columns, c.name ≠ "password") :
    ∃ s'', (upgrade s).bind downgrade = Except.ok s'' ∧
      s''.map (fun tb => (tb.name, tb.columns)) =
        s.map (fun tb => (tb.name, tb.columns)) ∧
      ((∀ r ∈ t.rows, r.length = t.columns.length) → s'' = s) := by
  obtain ⟨ht, pre, post, hs, hpre⟩ := findTable_decomp s "users" t hfind
  have ht' : ((addColumnToTable passwordColumn t).name == "users") = true := ht
  have hup := upgrade_ok_shape s t hfind hnopw
  have hmod : modifyTable s "users" (addColumnToTable passwordColumn) =
      pre ++ addColumnToTable passwordColumn t :: post := by
    rw [hs]; exact modifyTable_append pre post t "users" _ hpre ht
  have hf1 : findTable (pre ++ addColumnToTable passwordColumn t :: post)
      "users" = some (addColumnToTable passwordColumn t) :=
    findTable_append pre post _ "users" hpre ht'
  have hhas1 : ((addColumnToTable passwordColumn t).columns.any
      fun c => c.name == "password") = true := by
    show ((t.columns ++ [passwordColumn]).any
      fun c => c.name == "password") = true
    rw [List.any_append]
    simp [passwordColumn]
  have hdown := downgrade_ok_shape
    (pre ++ addColumnToTable passwordColumn t :: post)
    (addColumnToTable passwordColumn t) hf1 hhas1
  have hmod1 : modifyTable (pre ++ addColumnToTable passwordColumn t :: post)
      "users" (dropColumnFromTable "password") =
      pre ++ dropColumnFromTable "password"
        (addColumnToTable passwordColumn t) :: post :=
    modifyTable_append pre post _ "users" _ hpre ht'
  obtain ⟨hcols, hfull⟩ := drop_add_password_table t hnopw
  refine ⟨pre ++ dropColumnFromTable "password"
      (addColumnToTable passwordColumn t) :: post, ?_, ?_, ?_⟩
  · rw [hup]
    show downgrade (modifyTable s "users" (addColumnToTable passwordColumn))
      = _
    rw [hmod, hdown, hmod1]
  · have hpair : ((dropColumnFromTable "password"
        (addColumnToTable passwordColumn t)).name,
        (dropColumnFromTable "password"
          (addColumnToTable passwordColumn t)).columns)
        = (t.name, t.columns) := by
      rw [hcols]
      rfl
    rw [hs]
    simp only [List.map_append, List.map_cons]
    rw [hpair]
  · intro hrows
    rw [hfull hrows, hs]

/-- C1 check: the round-trip theorem instantiated on a concrete schema. -/
theorem spec_upgrade_downgrade_roundtrip_check :
    ∃ s'', (upgrade demoSchema).bind downgrade = Except.ok s'' ∧
      s''.map (fun tb => (tb.name, tb.columns)) =
        demoSchema.map (fun tb => (tb.name, tb.columns)) ∧
      ((∀ r ∈ usersTable.rows, r.length = usersTable.columns.length) →
        s'' = demoSchema) :=
  spec_upgrade_downgrade_roundtrip demoSchema usersTable rfl (by decide)

/-- C2: for every schema whose `users` table exists and has no `password`
column, `upgrade` succeeds and the resulting `users` table gains exactly
one column named `password` of type `varchar 32`, nullable, with no
default, no index, no uniqueness and no primary-key constraint. -/
theorem spec_upgrade_adds_password_column (s : Schema) (t : Table)
    (hfind : findTable s "users" = some t)
    (hnopw : ∀ c ∈ t.columns, c.name ≠ "password") :
    ∃ s', upgrade s = Except.ok s' ∧
      ∃ t', findTable s' "users" = some t' ∧
        t'.columns = t.columns ++ [passwordColumn] ∧
        passwordColumn.name = "password" ∧
        passwordColumn.type = SqlType.varchar 32 ∧
        passwordColumn.nullable = true ∧
        passwordColumn.default = none ∧
        passwordColumn.index = false ∧
        passwordColumn.unique = false ∧
        passwordColumn.primaryKey = false := by
  obtain ⟨ht, pre, post, hs, hpre⟩ := findTable_decomp s "users" t hfind
  refine ⟨_, upgrade_ok_shape s t hfind hnopw,
    addColumnToTable passwordColumn t, ?_, rfl, rfl, rfl, rfl, rfl, rfl,
    rfl, rfl⟩
  rw [hs, modifyTable_append pre post t "users" _ hpre ht]
  exact findTable_append pre post _ "users" hpre ht

/-- C2 check: the add-column theorem instantiated on a concrete schema. -/
theorem spec_upgrade_adds_password_column_check :
    ∃ s', upgrade demoSchema = Except.ok s' ∧
      ∃ t', findTable s' "users" = some t' ∧
        t'.columns = usersTable.columns ++ [passwordColumn] ∧
        passwordColumn.name = "password" ∧
        passwordColumn.type = SqlType.varchar 32 ∧
        passwordColumn.nullable = true ∧
        passwordColumn.default = none ∧
        passwordColumn.index = false ∧
        passwordColumn.unique = false ∧
        passwordColumn.primaryKey = false :=
  spec_upgrade_adds_password_column demoSchema usersTable rfl (by decide)

/-- C3: for every schema whose `users` table exists, has distinct column
names and has a `password` column, `downgrade` succeeds and the resulting
`users` table has no column named `password`. -/
theorem spec_downgrade_removes_password_column (s : Schema) (t : Table)
    (hfind : findTable s "users" = some t)
    (hhas : ∃ c ∈ t.columns, c.name = "password")
    (hnodup : (t.columns.map Column.name).Nodup) :
    ∃ s', downgrade s = Except.ok s' ∧
      ∃ t', findTable s' "users" = some t' ∧
        ∀ c ∈ t'.columns, c.name ≠ "password" := by
  obtain ⟨ht, pre, post, hs, hpre⟩ := findTable_decomp s "users" t hfind
  have hhasB : (t.columns.any fun c => c.name == "password") = true := by
    rw [List.any_eq_true]
    obtain ⟨c, hc, hcn⟩ := hhas
    exact ⟨c, hc, beq_iff_eq.mpr hcn⟩
  have hcount : t.columns.countP (fun c => c.name == "password") ≤ 1 := by
    have h1 := (List.nodup_iff_count_le_one.mp hnodup) "password"
    rw [List.count_eq_countP, List.countP_map] at h1
    exact h1
  refine ⟨_, downgrade_ok_shape s t hfind hhasB,
    dropColumnFromTable "password" t, ?_, ?_⟩
  · rw [hs, modifyTable_append pre post t "users" _ hpre ht]
    exact findTable_append pre post _ "users" hpre ht
  · intro c hc
    have hc' : c ∈ t.columns.eraseIdx
        (t.columns.findIdx fun cc => cc.name == "password") := hc
    have hfalse := countP_le_one_eraseIdx_findIdx t.columns
      (fun cc => cc.name == "password") hcount c hc'
    exact beq_eq_false_iff_ne.mp hfalse

/-- C3 check: the drop-column theorem instantiated on a concrete schema. -/
theorem spec_downgrade_removes_password_column_check :
    ∃ s', downgrade demoUpgraded = Except.ok s' ∧
      ∃ t', findTable s' "users" = some t' ∧
        ∀ c ∈ t'.columns, c.name ≠ "password" :=
  spec_downgrade_removes_password_column demoUpgraded
    (addColumnToTable passwordColumn usersTable) rfl (by decide) (by decide)

/-- C4: a successful `upgrade` or `downgrade` touches only the `password`
column of `users`: tables correspond one to one, every table keeps its
name, every table not named `users` is unchanged, and in every table the
sublist of columns not named `password` is unchanged. -/
theorem spec_migration_frame (s s' : Schema)
    (h : upgrade s = Except.ok s' ∨ downgrade s = Except.ok s') :
    List.Forall₂ (fun t t' =>
      t'.name = t.name ∧
      (t.name ≠ "users" → t' = t) ∧
      t'.columns.filter (fun c => !(c.name == "password")) =
        t.columns.filter (fun c => !(c.name == "password"))) s s' := by
  rcases h with h | h
  · obtain ⟨t, hfind, hnopwB, hres⟩ := upgrade_ok_inv s s' h
    obtain ⟨ht, pre, post, hs, hpre⟩ := findTable_decomp s "users" t hfind
    subst hres
    rw [hs, modifyTable_append pre post t "users" _ hpre ht]
    apply List.rel_append
    · exact List.forall₂_same.mpr (fun x _ => ⟨rfl, fun _ => rfl, rfl⟩)
    · apply List.Forall₂.cons
      · refine ⟨rfl, fun hne => absurd (beq_iff_eq.mp ht) hne, ?_⟩
        show ((t.columns ++ [passwordColumn]).filter
          fun c => !(c.name == "password")) = _
        rw [List.filter_append]
        have hone : ([passwordColumn].filter
            fun c => !(c.name == "password")) = [] := by
          simp [passwordColumn]
        rw [hone, List.append_nil]
      · exact List.forall₂_same.mpr (fun x _ => ⟨rfl, fun _ => rfl, rfl⟩)
  · obtain ⟨t, hfind, hhasB, hres⟩ := downgrade_ok_inv s s' h
    obtain ⟨ht, pre, post, hs, hpre⟩ := findTable_decomp s "users" t hfind
    subst hres
    rw [hs, modifyTable_append pre post t "users" _ hpre ht]
    apply List.rel_append
    · exact List.forall₂_same.mpr (fun x _ => ⟨rfl, fun _ => rfl, rfl⟩)
    · apply List.Forall₂.cons
      · refine ⟨rfl, fun hne => absurd (beq_iff_eq.mp ht) hne, ?_⟩
        show ((t.columns.eraseIdx
            (t.columns.findIdx fun c => c.name == "password")).filter
          fun c => !(c.name == "password")) = _
        exact filter_not_eraseIdx_findIdx t.columns _ hhasB
      · exact List.forall₂_same.mpr (fun x _ => ⟨rfl, fun _ => rfl, rfl⟩)

/-- C4 check: the frame theorem instantiated on a concrete schema. -/
theorem spec_migration_frame_check :
    List.Forall₂ (fun t t' =>
      t'.name = t.name ∧
      (t.name ≠ "users" → t' = t) ∧
      t'.columns.filter (fun c => !(c.name == "password")) =
        t.columns.filter (fun c => !(c.name == "password")))
      demoSchema demoUpgraded :=
  spec_migration_frame demoSchema demoUpgraded (Or.inl rfl)

/-- C5 counterexample: on a schema with a password-free `users` table,
`upgrade` is applicable, yet applying `upgrade` twice in succession does
not yield the result of applying it once: the second application fails
with a duplicate-column error, so the operation is not idempotent. -/
theorem spec_idempotence_refuted :
    ¬ ((upgrade demoSchema).bind upgrade = upgrade demoSchema) := by decide

/-- C5 amended: instead of being idempotent, each operation is never
applicable twice in a row: after a successful `upgrade`, a second
`upgrade` fails with a duplicate-column error, and after the subsequent
successful `downgrade`, a second `downgrade` fails with a missing-column
error. -/
theorem spec_second_application_fails (s su sd : Schema)
    (hup : upgrade s = Except.ok su)
    (hdown : downgrade su = Except.ok sd) :
    upgrade su =
      Except.error (MigrationError.duplicateColumn "users" "password") ∧
    downgrade sd =
      Except.error (MigrationError.noSuchColumn "users" "password") := by
  obtain ⟨t, hfind, hnopwB, hres⟩ := upgrade_ok_inv s su hup
  obtain ⟨ht, pre, post, hs, hpre⟩ := findTable_decomp s "users" t hfind
  have ht' : ((addColumnToTable passwordColumn t).name == "users") = true := ht
  have hsu : su = pre ++ addColumnToTable passwordColumn t :: post := by
    rw [hres, hs]
    exact modifyTable_append pre post t "users" _ hpre ht
  have hf1 : findTable su "users" =
      some (addColumnToTable passwordColumn t) := by
    rw [hsu]
    exact findTable_append pre post _ "users" hpre ht'
  have hnopw : ∀ c ∈ t.columns, c.name ≠ "password" := by
    intro c hc he
    exact (List.any_eq_false.mp hnopwB c hc) (beq_iff_eq.mpr he)
  have hhas1 : ((addColumnToTable passwordColumn t).columns.any
      fun c => c.name == passwordColumn.name) = true := by
    show ((t.columns ++ [passwordColumn]).any
      fun c => c.name == passwordColumn.name) = true
    rw [List.any_append]
    simp [passwordColumn]
  constructor
  · rw [upgrade, upgradeOps]
    show (op_add_column "users" passwordColumn su).bind (applyOps []) = _
    simp only [op_add_column, hf1, hhas1]
    rfl
  · obtain ⟨t₁, hfind₁, hhas₁, hres₁⟩ := downgrade_ok_inv su sd hdown
    have ht₁ : t₁ = addColumnToTable passwordColumn t := by
      have := hfind₁.symm.trans hf1
      injection this
    subst ht₁
    have hsd : sd = pre ++ dropColumnFromTable "password"
        (addColumnToTable passwordColumn t) :: post := by
      rw [hres₁, hsu]
      exact modifyTable_append pre post _ "users" _ hpre ht'
    have hf2 : findTable sd "users" = some (dropColumnFromTable "password"
        (addColumnToTable passwordColumn t)) := by
      rw [hsd]
      exact findTable_append pre post _ "users" hpre ht'
    have hcols := (drop_add_password_table t hnopw).1
    have hany2 : ((dropColumnFromTable "password"
        (addColumnToTable passwordColumn t)).columns.any
        fun c => c.name == "password") = false := by
      rw [hcols]
      exact hnopwB
    rw [downgrade, downgradeOps]
    show (op_drop_column "users" "password" sd).bind (applyOps []) = _
    simp only [op_drop_column, hf2, hany2]
    rfl

/-- C5 amended check: the failing second applications on a concrete
schema. -/
theorem spec_second_application_fails_check :
    upgrade demoUpgraded =
      Except.error (MigrationError.duplicateColumn "users" "password") ∧
    downgrade demoDowngraded =
      Except.error (MigrationError.noSuchColumn "users" "password") :=
  spec_second_application_fails demoSchema demoUpgraded demoDowngraded
    rfl rfl

/-- C6: the migration defines no error handling of its own: whenever the
single underlying engine operation fails, `upgrade` (resp. `downgrade`)
returns exactly that error, untransformed. -/
theorem spec_errors_propagate (s : Schema) (e : MigrationError) :
    (op_add_column "users" passwordColumn s = Except.error e →
      upgrade s = Except.error e) ∧
    (op_drop_column "users" "password" s = Except.error e →
      downgrade s = Except.error e) := by
  constructor
  · intro h
    rw [upgrade, upgradeOps]
    show (op_add_column "users" passwordColumn s).bind (applyOps []) = _
    rw [h]
    rfl
  · intro h
    rw [downgrade, downgradeOps]
    show (op_drop_column "users" "password" s).bind (applyOps []) = _
    rw [h]
    rfl

/-- C6 check: on the empty schema both operations fail with a
missing-table error, and the migration surfaces it unchanged. -/
theorem spec_errors_propagate_check :
    upgrade [] = Except.error (MigrationError.noSuchTable "users") ∧
    downgrade [] = Except.error (MigrationError.noSuchTable "users") :=
  ⟨(spec_errors_propagate [] (MigrationError.noSuchTable "users")).1 rfl,
   (spec_errors_propagate [] (MigrationError.noSuchTable "users")).2 rfl⟩

/-- C7: each migration function is a single straight-line command:
`upgrade` issues exactly one operation (the add-column on `users`) and
`downgrade` exactly one (the drop-column on `users`), and on every schema
each function is exactly that one operation. -/
theorem spec_single_operation :
    upgradeOps.length = 1 ∧ downgradeOps.length = 1 ∧
    upgradeOps = [Op.addColumn "users" passwordColumn] ∧
    downgradeOps = [Op.dropColumn "users" "password"] ∧
    (∀ s : Schema, upgrade s = op_add_column "users" passwordColumn s) ∧
    (∀ s : Schema, downgrade s = op_drop_column "users" "password" s) := by
  refine ⟨rfl, rfl, rfl, rfl, ?_, ?_⟩
  · intro s
    show (op_add_column "users" passwordColumn s).bind (applyOps []) = _
    cases op_add_column "users" passwordColumn s <;> rfl
  · intro s
    show (op_drop_column "users" "password" s).bind (applyOps []) = _
    cases op_drop_column "users" "password" s <;> rfl

/-- C8: this migration is the root of the migration graph: its revision
identifier is `d2d62f3291f0` and it revises nothing (`down_revision` is
`None`, as are `branch_labels` and `depends_on`). -/
theorem spec_root_revision :
    revision = "d2d62f3291f0" ∧ down_revision = none ∧
      branch_labels = none ∧ depends_on = none :=
  ⟨rfl, rfl, rfl, rfl⟩

/-- C9: `upgrade` preserves all existing row data of `users`: the rows of
the upgraded table are exactly the old rows, each kept intact and extended
with a NULL in the new `password` cell, and the row count is unchanged. -/
theorem spec_upgrade_preserves_rows (s : Schema) (t : Table)
    (hfind : findTable s "users" = some t)
    (hnopw : ∀ c ∈ t.columns, c.name ≠ "password") :
    ∃ s', upgrade s = Except.ok s' ∧
      ∃ t', findTable s' "users" = some t' ∧
        t'.rows = t.rows.map (fun r => r ++ [Value.null]) ∧
        t'.rows.length = t.rows.length := by
  obtain ⟨ht, pre, post, hs, hpre⟩ := findTable_decomp s "users" t hfind
  refine ⟨_, upgrade_ok_shape s t hfind hnopw,
    addColumnToTable passwordColumn t, ?_, rfl, ?_⟩
  · rw [hs, modifyTable_append pre post t "users" _ hpre ht]
    exact findTable_append pre post _ "users" hpre ht
  · show (t.rows.map fun r => r ++ [passwordColumn.initialValue]).length
      = t.rows.length
    exact List.length_map t.rows _

/-- C9 check: row preservation instantiated on a concrete schema. -/
theorem spec_upgrade_preserves_rows_check :
    ∃ s', upgrade demoSchema = Except.ok s' ∧
      ∃ t', findTable s' "users" = some t' ∧
        t'.rows = usersTable.rows.map (fun r => r ++ [Value.null]) ∧
        t'.rows.length = usersTable.rows.length :=
  spec_upgrade_preserves_rows demoSchema usersTable rfl (by decide)

/-- C10: `upgrade` and `downgrade` are deterministic: they read nothing
but the schema, so two runs on equal input schemas return equal results. -/
theorem spec_migration_deterministic (s₁ s₂ : Schema) (h : s₁ = s₂) :
    upgrade s₁ = upgrade s₂ ∧ downgrade s₁ = downgrade s₂ := by
  subst h
  exact ⟨rfl, rfl⟩

/-- C10 check: determinism instantiated on a concrete schema. -/
theorem spec_migration_deterministic_check :
    upgrade demoSchema = upgrade demoSchema ∧
      downgrade demoSchema = downgrade demoSchema :=
  spec_migration_deterministic demoSchema demoSchema rfl

end Migration
